import Mathlib

/-!
# Verification of the Best Buy product-retrieval core (`src/app.py`)

Shallow embedding of the retrieval engine of `app.py`:

* `normalize_sku_input` — SKU text normalization (split / clean / dedup);
* `extract_category` — category fallback chain over a JSON-like record;
* `safe_get_products` — retry/backoff wrapper around one HTTP GET;
* `fetch_products_by_skus` / `fetch_products_by_keyword` /
  `fetch_products_by_category` — the three retrieval engines.

Modelling conventions:

* JSON values are the inductive `Value`; a decoded record (`dict`) is an
  association list `RawRecord`.  Python truthiness is `Value.truthy`.
* The network is an oracle: for the engines, `resp n` is the value
  `safe_get_products` produced for the run's n-th chunk/page
  (`none` = the call failed / returned a non-dict, `some ps` = a decoded
  payload whose `products` list is `ps`); for `safe_get_products` itself,
  `resps a` is the HTTP response to the (a+1)-th request attempt.
* The single `datetime.now()` call at the start of a run is modelled by the
  engine's `t0 : Nat` argument; `fmtTime` stands for `strftime`.
* The unbounded `while True:` page loops are given an explicit `fuel`
  argument; `finished = false` records that the loop was still running when
  the fuel ran out (the real loop has no such bound), `calls` counts the
  `safe_get_products` invocations made.
* Streamlit side effects (`st.progress`, `st.error`, `st.warning`,
  `time.sleep`) either do not influence the returned value (progress,
  sleeps) or are recorded in the result structure (error/warning fields of
  `SafeGetResult`).
-/

namespace BestBuy

/-- The double-quote character (written via its code point). -/
def dq : Char := Char.ofNat 34

/-- The single-quote character (written via its code point). -/
def sq : Char := Char.ofNat 39

/-! ## JSON-like values and records -/

/-- A decoded JSON value, as Python would hand it back from `resp.json()`. -/
inductive Value where
  | null
  | bool (b : Bool)
  | num (q : ℚ)
  | str (s : String)
  | arr (xs : List Value)
  | obj (fields : List (String × Value))

/-- Python truthiness of a decoded value (`if name:` etc.). -/
def Value.truthy : Value → Bool
  | .null => false
  | .bool b => b
  | .num q => decide (q ≠ 0)
  | .str s => decide (s ≠ "")
  | .arr xs => !xs.isEmpty
  | .obj fs => !fs.isEmpty

/-- A decoded JSON object (`dict`): association list, first binding wins. -/
def RawRecord := List (String × Value)

/-- `d.get(key)` on a decoded object: `none` models Python `None`. -/
def dget : List (String × Value) → String → Option Value
  | [], _ => none
  | (k, v) :: rest, key => if k = key then some v else dget rest key

/-! ## `extract_category` (app.py lines 37–60) -/

/-- `extract_category(product)`: last `categoryPath` entry's truthy `name`;
else a truthy `class.name` when `class` is a dict; else `class` itself when
it is a string; else `department` (possibly absent). -/
def extract_category (product : RawRecord) : Option Value :=
  -- cat_path = product.get("categoryPath") or []
  -- if isinstance(cat_path, list) and cat_path: last = cat_path[-1]; ...
  let fromPath : Option Value :=
    match dget product "categoryPath" with
    | some (Value.arr xs) =>
      match xs.getLast? with
      | some (Value.obj last) =>
        match dget last "name" with
        | some n => if n.truthy then some n else none
        | none => none
      | _ => none
    | _ => none
  match fromPath with
  | some n => some n
  | none =>
    -- cls = product.get("class")
    let fromClass : Option Value :=
      match dget product "class" with
      | some (Value.obj cfields) =>
        match dget cfields "name" with
        | some n => if n.truthy then some n else none
        | none => none
      | some (Value.str s) => some (Value.str s)
      | _ => none
    match fromClass with
    | some v => some v
    | none => dget product "department"

/-! ## Row projection (the row dict built at app.py lines 110–120) -/

/-- The canonical output row: each field is `product.get(...)`. -/
structure ProjectedRow where
  sku : Option Value
  name : Option Value
  brand : Option Value
  modelNumber : Option Value
  category : Option Value
  regularPrice : Option Value
  salePrice : Option Value
  onlineAvailability : Option Value
  url : Option Value

/-- One raw record to one output row (identical in all three engines). -/
def projectRow (product : RawRecord) : ProjectedRow where
  sku := dget product "sku"
  name := dget product "name"
  brand := dget product "manufacturer"
  modelNumber := dget product "modelNumber"
  category := extract_category product
  regularPrice := dget product "regularPrice"
  salePrice := dget product "salePrice"
  onlineAvailability := dget product "onlineAvailability"
  url := dget product "url"

/-! ## `normalize_sku_input` (app.py lines 17–35) -/

/-- A character matched by the separator class `[,\s]` of
`re.split(r"[,\s]+", ...)` (comma or ASCII whitespace). -/
def isSepChar (c : Char) : Bool :=
  c = ',' || c = ' ' || c = '\t' || c = '\n' || c = '\r' ||
    c = Char.ofNat 11 || c = Char.ofNat 12

/-- Tokenizer for `re.split(r"[,\s]+", s)`: the maximal separator-free runs
of `s`, in order.  (`re.split` with this pattern can additionally yield
empty edge tokens; the source drops every token that cleans to the empty
string at line 27, so those are folded away here.) -/
def tokenizeGo : List Char → List Char → List (List Char)
  | [], cur => if cur.isEmpty then [] else [cur.reverse]
  | c :: cs, cur =>
    if isSepChar c then
      if cur.isEmpty then tokenizeGo cs [] else cur.reverse :: tokenizeGo cs []
    else tokenizeGo cs (c :: cur)

/-- Maximal separator-free runs of a character list. -/
def sepTokens (l : List Char) : List (List Char) := tokenizeGo l []

/-- Drop the maximal run of characters satisfying `p` from both ends
(Python `str.strip(chars)`). -/
def dropEdge (p : Char → Bool) (l : List Char) : List Char :=
  ((l.dropWhile p).reverse.dropWhile p).reverse

/-- Python `str.strip()`: remove surrounding whitespace. -/
def pyStrip (l : List Char) : List Char := dropEdge (fun c => c.isWhitespace) l

/-- The token cleaning of line 27: `s.strip().strip(DQ).strip(SQ)` —
surrounding whitespace, then surrounding double quotes, then surrounding
single quotes, in that order. -/
def cleanChars (l : List Char) : List Char :=
  dropEdge (fun c => c = sq) (dropEdge (fun c => c = dq) (pyStrip l))

/-- The `seen`-set dedup loop of lines 29–34: keep the first occurrence. -/
def dedupFirstGo (seen : List String) : List String → List String
  | [] => []
  | s :: rest =>
    if s ∈ seen then dedupFirstGo seen rest
    else s :: dedupFirstGo (s :: seen) rest

/-- Deduplicate keeping first occurrences (`seen`/`out` loop of the source). -/
def dedupFirst (l : List String) : List String := dedupFirstGo [] l

/-- The `cleaned` list of line 27: split the stripped input into tokens,
clean each, keep the non-empty ones. -/
def cleanedTokens (s : String) : List String :=
  (((sepTokens (pyStrip s.toList)).map cleanChars).filter
    (fun l => !l.isEmpty)).map (fun l => String.mk l)

/-- `normalize_sku_input(sku_text)` (app.py lines 17–35). -/
def normalize_sku_input (sku_text : String) : List String :=
  if sku_text = "" then []
  else dedupFirst (cleanedTokens sku_text)

/-- Re-join a normalized list one-per-line (the spec's "(re-joined) output";
newline is one of the interchangeable separators). -/
def joinSep : List (List Char) → List Char
  | [] => []
  | [t] => t
  | t :: ts => t ++ '\n' :: joinSep ts

/-- Re-join at the string level. -/
def rejoinLines (ts : List String) : String :=
  String.mk (joinSep (ts.map String.toList))

/-! ## `safe_get_products` (app.py lines 62–77) -/

/-- One HTTP response: status, body text, and (for status 200) the decoded
payload's product list. -/
structure HttpResp where
  status : ℕ
  body : String
  payload : List RawRecord

/-- Observable outcome of one `safe_get_products` call: returned value,
number of requests issued, backoff sleeps performed (in order), the
`st.error` diagnostic (status, body) if any, and whether the
"rate limit persisted" `st.warning` was shown. -/
structure SafeGetResult where
  ret : Option (List RawRecord)
  requests : ℕ
  sleeps : List ℚ
  errorMsg : Option (ℕ × String)
  rateLimitWarning : Bool

/-- The `for attempt in range(retries)` loop: `remaining` attempts left,
`attempt` the current 0-based index.  200 → return the payload; 403/429 →
sleep `backoff * (attempt + 1)` and continue; otherwise `st.error` and
return `None`; loop exhausted → `st.warning` and return `None`. -/
def safeGetGo (resps : ℕ → HttpResp) (b : ℚ) : ℕ → ℕ → SafeGetResult
  | 0, _ =>
    { ret := none, requests := 0, sleeps := [], errorMsg := none,
      rateLimitWarning := true }
  | r + 1, attempt =>
    if (resps attempt).status = 200 then
      { ret := some (resps attempt).payload, requests := 1, sleeps := [],
        errorMsg := none, rateLimitWarning := false }
    else if (resps attempt).status = 403 ∨ (resps attempt).status = 429 then
      { ret := (safeGetGo resps b r (attempt + 1)).ret,
        requests := (safeGetGo resps b r (attempt + 1)).requests + 1,
        sleeps := b * ((attempt : ℚ) + 1) ::
          (safeGetGo resps b r (attempt + 1)).sleeps,
        errorMsg := (safeGetGo resps b r (attempt + 1)).errorMsg,
        rateLimitWarning := (safeGetGo resps b r (attempt + 1)).rateLimitWarning }
    else
      { ret := none, requests := 1, sleeps := [],
        errorMsg := some ((resps attempt).status, (resps attempt).body),
        rateLimitWarning := false }

/-- `safe_get_products(url, params, retries, backoff)`; the source defaults
are `retries = 3`, `backoff = 1.5`. -/
def safe_get_products (resps : ℕ → HttpResp) (retries : ℕ) (b : ℚ) :
    SafeGetResult :=
  safeGetGo resps b retries 0

/-! ## The three retrieval engines (app.py lines 79–213) -/

/-- The returned `pd.DataFrame`: its rows, and the shared
`data_pull_time` column (absent when the frame is empty). -/
structure DataFrameResult where
  rows : List ProjectedRow
  data_pull_time : Option String

/-- `datetime.datetime.now().strftime("%Y-%m-%d %H:%M:%S")` applied to the
capture instant `t` (time as an abstract tick count). -/
def fmtTime (t : ℕ) : String := Nat.repr t

/-- The chunk slices of `for idx in range(0, len(sku_list), 100)`:
`sku_list[idx : idx + 100]` for each chunk index. -/
def chunksOf (n : ℕ) (l : List α) : List (List α) :=
  (List.range ((l.length + n - 1) / n)).map (fun i => (l.drop (i * n)).take n)

/-- `fetch_products_by_skus(sku_list)` (lines 79–128).  `resp i` is what
`safe_get_products` returned for the i-th chunk; a failed call (`None`)
contributes no rows and the loop continues.  `t0` is the instant of the
single `datetime.now()` call at line 88. -/
def fetch_products_by_skus (sku_list : List String)
    (resp : ℕ → Option (List RawRecord)) (t0 : ℕ) : DataFrameResult :=
  if sku_list.isEmpty then { rows := [], data_pull_time := none }
  else
    let run_ts := fmtTime t0
    let chunks := chunksOf 100 sku_list
    let all_rows := (List.range chunks.length).flatMap fun i =>
      match resp i with
      | some products => products.map projectRow
      | none => []
    { rows := all_rows,
      data_pull_time := if all_rows.isEmpty then none else some run_ts }

/-- Outcome of one `while True:` page loop, run with explicit fuel:
accumulated rows, number of `safe_get_products` calls made, and whether the
loop reached one of its own `break`s (`finished = false` means the fuel ran
out first — the source loop would still be running). -/
structure PagedOut where
  rows : List ProjectedRow
  calls : ℕ
  finished : Bool

/-- The page loop shared by `fetch_products_by_keyword` (lines 145–166) and
`fetch_products_by_category` (lines 188–208): fetch `page`, break on a
failed call, append the page's rows, break when the page has fewer than
`pageSize` records, else continue with `page + 1`. -/
def pagedLoop (resp : ℕ → Option (List RawRecord)) (pageSize : ℕ) :
    ℕ → ℕ → PagedOut
  | 0, _ => { rows := [], calls := 0, finished := false }
  | fuel + 1, page =>
    match resp page with
    | none => { rows := [], calls := 1, finished := true }
    | some products =>
      let rows := products.map projectRow
      if products.length < pageSize then
        { rows := rows, calls := 1, finished := true }
      else
        let rest := pagedLoop resp pageSize fuel (page + 1)
        { rows := rows ++ rest.rows, calls := rest.calls + 1,
          finished := rest.finished }

/-- `fetch_products_by_keyword(keyword)` (lines 130–171): `resp p` is the
`safe_get_products` result for page `p`; pages start at 1 with
`pageSize = 100`; `t0` is the instant of line 133's `datetime.now()`. -/
def fetch_products_by_keyword (keyword : String)
    (resp : ℕ → Option (List RawRecord)) (fuel : ℕ) (t0 : ℕ) :
    DataFrameResult :=
  if keyword = "" then { rows := [], data_pull_time := none }
  else
    let run_ts := fmtTime t0
    let out := pagedLoop resp 100 fuel 1
    { rows := out.rows,
      data_pull_time := if out.rows.isEmpty then none else some run_ts }

/-- `fetch_products_by_category(category_id)` (lines 173–213): identical
paging structure to the keyword engine. -/
def fetch_products_by_category (category_id : String)
    (resp : ℕ → Option (List RawRecord)) (fuel : ℕ) (t0 : ℕ) :
    DataFrameResult :=
  if category_id = "" then { rows := [], data_pull_time := none }
  else
    let run_ts := fmtTime t0
    let out := pagedLoop resp 100 fuel 1
    { rows := out.rows,
      data_pull_time := if out.rows.isEmpty then none else some run_ts }

/-! ## Lemmas about the page loop -/

/-- Running the page loop across `k` successful full pages just appends
their rows, adds `k` calls, and continues at page `page + k`. -/
theorem pagedLoop_skip (resp : ℕ → Option (List RawRecord))
    (pages : ℕ → List RawRecord) (pageSize : ℕ) (k f page : ℕ)
    (hresp : ∀ j, j < k → resp (page + j) = some (pages (page + j)))
    (hfull : ∀ j, j < k → pageSize ≤ (pages (page + j)).length) :
    pagedLoop resp pageSize (k + f) page =
      { rows := ((List.range k).flatMap fun j =>
            (pages (page + j)).map projectRow) ++
          (pagedLoop resp pageSize f (page + k)).rows,
        calls := (pagedLoop resp pageSize f (page + k)).calls + k,
        finished := (pagedLoop resp pageSize f (page + k)).finished } := by
  induction k generalizing page with
  | zero => simp
  | succ k ih =>
    have h0 : resp page = some (pages page) := by
      have := hresp 0 (Nat.succ_pos k)
      rwa [Nat.add_zero] at this
    have hlen : ¬ (pages page).length < pageSize := by
      have := hfull 0 (Nat.succ_pos k)
      rw [Nat.add_zero] at this
      omega
    have hstep : k + 1 + f = (k + f) + 1 := by omega
    rw [hstep, pagedLoop, h0]
    simp only [if_neg hlen]
    rw [ih (page + 1)
      (fun j hj => by
        have h := hresp (j + 1) (by omega)
        have e : page + (j + 1) = page + 1 + j := by omega
        rwa [e] at h)
      (fun j hj => by
        have h := hfull (j + 1) (by omega)
        have e : page + (j + 1) = page + 1 + j := by omega
        rwa [e] at h)]
    have hpk : page + (k + 1) = page + 1 + k := by omega
    rw [hpk]
    have hrows : (List.range (k + 1)).flatMap
          (fun j => (pages (page + j)).map projectRow) =
        (pages page).map projectRow ++
          (List.range k).flatMap
            (fun j => (pages (page + 1 + j)).map projectRow) := by
      rw [List.range_succ_eq_map, List.flatMap_cons, List.flatMap_map]
      rw [Nat.add_zero]
      congr 1
      exact congrArg (fun g => (List.range k).flatMap g)
        (funext fun j => by
          have e : page + (j + 1) = page + 1 + j := by omega
          rw [Nat.succ_eq_add_one, e])
    rw [hrows]
    simp [List.append_assoc, Nat.add_assoc]

/-- Against a server that answers every page with a full page, the loop
consumes all its fuel, makes one call per fuel unit, and never reaches one
of its own exits: the source's `while True:` would run forever. -/
theorem pagedLoop_full_forever (ps : List RawRecord) (pageSize : ℕ)
    (hfull : pageSize ≤ ps.length) (fuel page : ℕ) :
    (pagedLoop (fun _ => some ps) pageSize fuel page).calls = fuel ∧
      (pagedLoop (fun _ => some ps) pageSize fuel page).finished = false := by
  have h := pagedLoop_skip (fun _ => some ps) (fun _ => ps) pageSize fuel 0
    page (fun _ _ => rfl) (fun _ _ => hfull)
  rw [Nat.add_zero] at h
  rw [h]
  simp [pagedLoop]

/-! ## Claim theorems -/

/-- C1 (counterexample): the value returned by a run does NOT distinguish a
run whose only fetch failed from a run that matched nothing — in SKU mode
and in keyword mode, both return the identical empty frame. -/
theorem C1_counterexample :
    fetch_products_by_skus ["6401728"] (fun _ => none) 0 =
        fetch_products_by_skus ["6401728"] (fun _ => some []) 0 ∧
      fetch_products_by_keyword "tv" (fun _ => none) 7 0 =
        fetch_products_by_keyword "tv" (fun _ => some []) 7 0 := by
  constructor <;> rfl

/-- C1 (amended): the returned value distinguishes only empty from
non-empty.  For every run, in each of the three modes, a run in which every
chunk/page fetch failed returns exactly the same value — an empty frame
with no timestamp — as a run in which every fetch succeeded with zero
rows; failure is surfaced only through warning side effects, never through
the returned outcome. -/
theorem C1_amended_thm (skus : List String) (kw cid : String)
    (t0 t1 t2 fuel1 fuel2 : ℕ) :
    fetch_products_by_skus skus (fun _ => none) t0 =
        fetch_products_by_skus skus (fun _ => some []) t0 ∧
      fetch_products_by_keyword kw (fun _ => none) fuel1 t1 =
        fetch_products_by_keyword kw (fun _ => some []) fuel1 t1 ∧
      fetch_products_by_category cid (fun _ => none) fuel2 t2 =
        fetch_products_by_category cid (fun _ => some []) fuel2 t2 := by
  refine ⟨?_, ?_, ?_⟩
  · unfold fetch_products_by_skus
    split
    · rfl
    · simp
  · unfold fetch_products_by_keyword
    cases fuel1 <;> simp [pagedLoop]
  · unfold fetch_products_by_category
    cases fuel2 <;> simp [pagedLoop]

/-- The timestamp column of a SKU run: present iff rows exist, and always
the formatted start instant. -/
theorem skus_dpt (skus : List String) (resp : ℕ → Option (List RawRecord))
    (t0 : ℕ) :
    (fetch_products_by_skus skus resp t0).data_pull_time =
      if (fetch_products_by_skus skus resp t0).rows.isEmpty then none
      else some (fmtTime t0) := by
  unfold fetch_products_by_skus
  split <;> rfl

/-- The timestamp column of a keyword run: present iff rows exist, and
always the formatted start instant. -/
theorem keyword_dpt (kw : String) (resp : ℕ → Option (List RawRecord))
    (fuel t0 : ℕ) :
    (fetch_products_by_keyword kw resp fuel t0).data_pull_time =
      if (fetch_products_by_keyword kw resp fuel t0).rows.isEmpty then none
      else some (fmtTime t0) := by
  unfold fetch_products_by_keyword
  split <;> rfl

/-- The timestamp column of a category run: present iff rows exist, and
always the formatted start instant. -/
theorem category_dpt (cid : String) (resp : ℕ → Option (List RawRecord))
    (fuel t0 : ℕ) :
    (fetch_products_by_category cid resp fuel t0).data_pull_time =
      if (fetch_products_by_category cid resp fuel t0).rows.isEmpty then none
      else some (fmtTime t0) := by
  unfold fetch_products_by_category
  split <;> rfl

/-- C2: in each of the three modes, whenever the run's result carries the
timestamp column, its (single, shared by every row) value is the formatted
instant `t0` captured at the start of the run — the run's output never
depends on any later wall-clock reading. -/
theorem C2_thm (skus : List String) (resp respK respC : ℕ → Option (List RawRecord))
    (kw cid : String) (t0 t1 t2 fuelK fuelC : ℕ)
    (h1 : (fetch_products_by_skus skus resp t0).rows.isEmpty = false)
    (h2 : (fetch_products_by_keyword kw respK fuelK t1).rows.isEmpty = false)
    (h3 : (fetch_products_by_category cid respC fuelC t2).rows.isEmpty = false) :
    (fetch_products_by_skus skus resp t0).data_pull_time = some (fmtTime t0) ∧
      (fetch_products_by_keyword kw respK fuelK t1).data_pull_time =
        some (fmtTime t1) ∧
      (fetch_products_by_category cid respC fuelC t2).data_pull_time =
        some (fmtTime t2) := by
  refine ⟨?_, ?_, ?_⟩
  · rw [skus_dpt, h1]
    rfl
  · rw [keyword_dpt, h2]
    rfl
  · rw [category_dpt, h3]
    rfl

/-- C2 (witness): a concrete run in each mode carries exactly the
start-of-run timestamp. -/
theorem C2_witness :
    (fetch_products_by_skus ["a"] (fun _ => some [[]]) 7).data_pull_time =
        some (fmtTime 7) ∧
      (fetch_products_by_keyword "tv" (fun _ => some [[]]) 1 3).data_pull_time =
        some (fmtTime 3) ∧
      (fetch_products_by_category "abcat" (fun _ => some [[]]) 1 5).data_pull_time =
        some (fmtTime 5) :=
  C2_thm ["a"] (fun _ => some [[]]) (fun _ => some [[]]) (fun _ => some [[]])
    "tv" "abcat" 7 3 5 1 1 rfl rfl rfl

/-- C10: in each of the three modes, the returned frame carries the
timestamp column exactly when the run produced at least one row; a zero-row
run (no matches or failed fetches alike) returns a frame with no timestamp
at all. -/
theorem C10_thm (skus : List String) (resp respK respC : ℕ → Option (List RawRecord))
    (kw cid : String) (t0 t1 t2 fuelK fuelC : ℕ) :
    (fetch_products_by_skus skus resp t0).data_pull_time.isSome =
        !(fetch_products_by_skus skus resp t0).rows.isEmpty ∧
      (fetch_products_by_keyword kw respK fuelK t1).data_pull_time.isSome =
        !(fetch_products_by_keyword kw respK fuelK t1).rows.isEmpty ∧
      (fetch_products_by_category cid respC fuelC t2).data_pull_time.isSome =
        !(fetch_products_by_category cid respC fuelC t2).rows.isEmpty := by
  refine ⟨?_, ?_, ?_⟩
  · rw [skus_dpt]
    cases h : (fetch_products_by_skus skus resp t0).rows.isEmpty <;> simp
  · rw [keyword_dpt]
    cases h : (fetch_products_by_keyword kw respK fuelK t1).rows.isEmpty <;> simp
  · rw [category_dpt]
    cases h : (fetch_products_by_category cid respC fuelC t2).rows.isEmpty <;> simp

/-- C3 (counterexample): the paged loops have no maximum-page safety cap —
against a server that returns exactly `pageSize` records on every page,
no bound `N` caps the number of page fetches (the call count equals the
fuel, for every fuel). -/
theorem C3_counterexample :
    ¬ ∃ N, ∀ fuel,
      (pagedLoop (fun _ => some (List.replicate 100 ([] : RawRecord)))
        100 fuel 1).calls ≤ N := by
  rintro ⟨N, h⟩
  have hc := (pagedLoop_full_forever (List.replicate 100 ([] : RawRecord))
    100 (by simp) (N + 1) 1).1
  have := h (N + 1)
  rw [hc] at this
  omega

/-- C3 (amended): the paged loops are NOT guarded by a maximum-page cap;
they stop only via their own exits (a failed fetch or a page shorter than
`pageSize`).  Against a server that always returns exactly `pageSize`
records the loop makes one call per available fuel unit and never reaches
an exit — the source's unbounded `while True:` never terminates. -/
theorem C3_amended_thm (fuel page : ℕ) :
    (pagedLoop (fun _ => some (List.replicate 100 ([] : RawRecord)))
        100 fuel page).calls = fuel ∧
      (pagedLoop (fun _ => some (List.replicate 100 ([] : RawRecord)))
        100 fuel page).finished = false :=
  pagedLoop_full_forever (List.replicate 100 ([] : RawRecord)) 100
    (by simp) fuel page

/-- For a non-empty keyword the returned rows are exactly the page loop's
rows (pages from 1, page size 100). -/
theorem keyword_rows (kw : String) (resp : ℕ → Option (List RawRecord))
    (fuel t0 : ℕ) (hkw : kw ≠ "") :
    (fetch_products_by_keyword kw resp fuel t0).rows =
      (pagedLoop resp 100 fuel 1).rows := by
  unfold fetch_products_by_keyword
  rw [if_neg hkw]

/-- C8: a paged run walks pages 1, 2, … and stops exactly at the first page
shorter than the page size: with `k` full pages followed by a short page
`1 + k`, the loop makes exactly `k + 1` calls — never a further one — and
returns the pages' rows in order (given enough fuel, since the source loop
is unbounded). -/
theorem C8_thm (resp : ℕ → Option (List RawRecord))
    (pages : ℕ → List RawRecord) (k f t0 : ℕ) (kw : String) (hkw : kw ≠ "")
    (hresp : ∀ j, j < k → resp (1 + j) = some (pages (1 + j)))
    (hfull : ∀ j, j < k → 100 ≤ (pages (1 + j)).length)
    (hlast : resp (1 + k) = some (pages (1 + k)))
    (hshort : (pages (1 + k)).length < 100) :
    pagedLoop resp 100 (k + (f + 1)) 1 =
      { rows := (List.range (k + 1)).flatMap
          (fun j => (pages (1 + j)).map projectRow),
        calls := k + 1, finished := true } ∧
    (fetch_products_by_keyword kw resp (k + (f + 1)) t0).rows =
      (List.range (k + 1)).flatMap
        (fun j => (pages (1 + j)).map projectRow) := by
  have hstep : pagedLoop resp 100 (f + 1) (1 + k) =
      { rows := (pages (1 + k)).map projectRow, calls := 1,
        finished := true } := by
    rw [pagedLoop, hlast]
    simp [hshort]
  have hloop : pagedLoop resp 100 (k + (f + 1)) 1 =
      { rows := (List.range (k + 1)).flatMap
          (fun j => (pages (1 + j)).map projectRow),
        calls := k + 1, finished := true } := by
    rw [pagedLoop_skip resp pages 100 k (f + 1) 1 hresp hfull, hstep]
    rw [List.range_succ]
    simp [List.flatMap_append, Nat.add_comm]
  exact ⟨hloop, by rw [keyword_rows kw resp (k + (f + 1)) t0 hkw, hloop]⟩

/-- C8 (witness): against a server whose pages have sizes 100, 100, 37,
the keyword run makes exactly 3 page fetches and stops. -/
theorem C8_witness :
    pagedLoop (fun p => some (if p < 3 then List.replicate 100 ([] : RawRecord)
        else List.replicate 37 ([] : RawRecord))) 100 5 1 =
      { rows := (List.range 3).flatMap
          (fun j => ((if 1 + j < 3 then List.replicate 100 ([] : RawRecord)
            else List.replicate 37 ([] : RawRecord))).map projectRow),
        calls := 3, finished := true } ∧
    (fetch_products_by_keyword "tv"
        (fun p => some (if p < 3 then List.replicate 100 ([] : RawRecord)
          else List.replicate 37 ([] : RawRecord))) 5 0).rows =
      (List.range 3).flatMap
        (fun j => ((if 1 + j < 3 then List.replicate 100 ([] : RawRecord)
          else List.replicate 37 ([] : RawRecord))).map projectRow) :=
  C8_thm
    (fun p => some (if p < 3 then List.replicate 100 ([] : RawRecord)
      else List.replicate 37 ([] : RawRecord)))
    (fun p => if p < 3 then List.replicate 100 ([] : RawRecord)
      else List.replicate 37 ([] : RawRecord))
    2 2 0 "tv" (by decide)
    (fun j _ => rfl)
    (fun j hj => by interval_cases j <;> simp)
    rfl
    (by simp)

/-- C5 (counterexample): in a paged run a failed page fetch ABORTS the
pagination rather than continuing with the remaining pages: with page 1
full, page 2 failing, and page 3 non-empty, the run returns only page 1's
rows after exactly 2 calls — page 3's row is never fetched or returned. -/
theorem C5_counterexample :
    pagedLoop (fun p => if p = 1 then some (List.replicate 100 ([] : RawRecord))
        else if p = 2 then none
        else some [[("sku", Value.str "X")]]) 100 10 1 =
      { rows := (List.replicate 100 ([] : RawRecord)).map projectRow,
        calls := 2, finished := true } ∧
    (fetch_products_by_keyword "tv"
        (fun p => if p = 1 then some (List.replicate 100 ([] : RawRecord))
          else if p = 2 then none
          else some [[("sku", Value.str "X")]]) 10 0).rows.length = 100 :=
  ⟨rfl, rfl⟩

/-- C5 (amended): no failed unit raises and a failed unit contributes zero
rows, but the two engines differ in how the run continues: in SKU mode a
failed chunk behaves exactly like an empty chunk and all remaining chunks
are still fetched; in paged mode a failed page ends the pagination and only
the rows of the pages before it are returned. -/
theorem C5_amended_thm (skus : List String)
    (resp respK : ℕ → Option (List RawRecord)) (t0 i k f : ℕ)
    (pages : ℕ → List RawRecord) :
    (resp i = none →
      fetch_products_by_skus skus resp t0 =
        fetch_products_by_skus skus
          (fun j => if j = i then some [] else resp j) t0) ∧
    ((∀ j, j < k → respK (1 + j) = some (pages (1 + j))) →
      (∀ j, j < k → 100 ≤ (pages (1 + j)).length) →
      respK (1 + k) = none →
      pagedLoop respK 100 (k + (f + 1)) 1 =
        { rows := (List.range k).flatMap
            (fun j => (pages (1 + j)).map projectRow),
          calls := k + 1, finished := true }) := by
  constructor
  · intro h
    unfold fetch_products_by_skus
    split
    · rfl
    · have hr : (fun j => match resp j with
          | some products => products.map projectRow
          | none => ([] : List ProjectedRow)) =
        (fun j => match (if j = i then some [] else resp j) with
          | some products => products.map projectRow
          | none => ([] : List ProjectedRow)) := by
        funext j
        by_cases hj : j = i
        · subst hj
          rw [h, if_pos rfl]
          rfl
        · rw [if_neg hj]
      simp only [hr]
  · intro hresp hfull hlast
    have hstep : pagedLoop respK 100 (f + 1) (1 + k) =
        { rows := [], calls := 1, finished := true } := by
      rw [pagedLoop, hlast]
    rw [pagedLoop_skip respK pages 100 k (f + 1) 1 hresp hfull, hstep]
    simp [Nat.add_comm]

/-- C5 (witness): a concrete all-failed SKU run equals the corresponding
all-empty run, and a concrete paged run with a full page 1 and a failed
page 2 returns page 1's rows after 2 calls. -/
theorem C5_witness :
    fetch_products_by_skus ["a"] (fun _ => none) 0 =
      fetch_products_by_skus ["a"]
        (fun j => if j = 0 then some [] else none) 0 ∧
    pagedLoop (fun p => if p = 1 then some (List.replicate 100 ([] : RawRecord))
        else none) 100 2 1 =
      { rows := (List.range 1).flatMap
          (fun _ => (List.replicate 100 ([] : RawRecord)).map projectRow),
        calls := 2, finished := true } :=
  ⟨(C5_amended_thm ["a"] (fun _ => none) (fun _ => none) 0 0 0 0
      (fun _ => [])).1 rfl,
    (C5_amended_thm ["a"] (fun _ => none)
      (fun p => if p = 1 then some (List.replicate 100 ([] : RawRecord))
        else none) 0 0 1 0
      (fun _ => List.replicate 100 ([] : RawRecord))).2
      (fun j hj => by interval_cases j; rfl)
      (fun j hj => by simp)
      rfl⟩

/-! ## Lemmas about `safe_get_products` -/

/-- Splitting off the first backoff sleep of a run of consecutive sleeps. -/
theorem range_map_backoff (b : ℚ) (a m : ℕ) :
    (List.range (m + 1)).map (fun i => b * (((a + i : ℕ) : ℚ) + 1)) =
      b * ((a : ℚ) + 1) ::
        (List.range m).map (fun i => b * (((a + 1 + i : ℕ) : ℚ) + 1)) := by
  rw [List.range_succ_eq_map, List.map_cons, List.map_map]
  congr 1
  refine congrArg (fun g => (List.range m).map g) (funext fun i => ?_)
  show b * (((a + Nat.succ i : ℕ) : ℚ) + 1) = _
  have e : a + Nat.succ i = a + 1 + i := by omega
  rw [e]

/-- Running the retry loop across `k` consecutive rate-limited attempts
adds `k` requests and the `k` linearly growing backoff sleeps, then
continues at attempt `a + k`. -/
theorem safeGetGo_skip (resps : ℕ → HttpResp) (b : ℚ) (k r a : ℕ)
    (hk : ∀ i, i < k →
      (resps (a + i)).status = 403 ∨ (resps (a + i)).status = 429) :
    safeGetGo resps b (k + r) a =
      { ret := (safeGetGo resps b r (a + k)).ret,
        requests := (safeGetGo resps b r (a + k)).requests + k,
        sleeps := ((List.range k).map fun i => b * (((a + i : ℕ) : ℚ) + 1)) ++
          (safeGetGo resps b r (a + k)).sleeps,
        errorMsg := (safeGetGo resps b r (a + k)).errorMsg,
        rateLimitWarning := (safeGetGo resps b r (a + k)).rateLimitWarning } := by
  induction k generalizing a with
  | zero => simp
  | succ k ih =>
    have h0 := hk 0 (Nat.succ_pos k)
    rw [Nat.add_zero] at h0
    have hne : ¬ (resps a).status = 200 := by rcases h0 with h | h <;> omega
    have hstep : k + 1 + r = (k + r) + 1 := by omega
    rw [hstep, safeGetGo, if_neg hne, if_pos h0]
    rw [ih (a + 1) (fun i hi => by
      have h := hk (i + 1) (by omega)
      have e : a + (i + 1) = a + 1 + i := by omega
      rwa [e] at h)]
    have hpk : a + (k + 1) = a + 1 + k := by omega
    rw [hpk, range_map_backoff, List.cons_append, ← Nat.add_assoc]

/-- The retry loop never makes more requests than it has attempts. -/
theorem safeGetGo_requests_le (resps : ℕ → HttpResp) (b : ℚ) :
    ∀ r a, (safeGetGo resps b r a).requests ≤ r
  | 0, _ => by simp [safeGetGo]
  | r + 1, a => by
    rw [safeGetGo]
    split
    · simp
    · split
      · have := safeGetGo_requests_le resps b r (a + 1)
        simp only []
        omega
      · simp

/-- The sleeps of any retry run are an initial run of the linear backoff
sequence starting at the first attempt. -/
theorem safeGetGo_sleeps_shape (resps : ℕ → HttpResp) (b : ℚ) :
    ∀ r a, ∃ m, (safeGetGo resps b r a).sleeps =
      (List.range m).map fun i => b * (((a + i : ℕ) : ℚ) + 1)
  | 0, a => ⟨0, by simp [safeGetGo]⟩
  | r + 1, a => by
    rw [safeGetGo]
    split
    · exact ⟨0, by simp⟩
    · split
      · obtain ⟨m, hm⟩ := safeGetGo_sleeps_shape resps b r (a + 1)
        refine ⟨m + 1, ?_⟩
        simp only []
        rw [hm, range_map_backoff]
      · exact ⟨0, by simp⟩

/-- C4: for the rate-limited fetcher, (i) after `k` rate-limited attempts a
200 returns the decoded payload with `k + 1` requests and sleeps
`b·1, …, b·k`; (ii) persistent rate limiting consumes exactly `retries`
attempts, sleeping `b·attempt` after each (attempt counted from 1), then
gives up with the rate-limit warning; (iii) any other non-200 status is
terminal — no retry — surfacing the status and body; (iv) at most
`retries` requests are ever made; (v) successive backoff sleeps strictly
increase. -/
theorem C4_thm (resps : ℕ → HttpResp) (k f retries : ℕ) (b : ℚ)
    (hb : 0 < b) :
    ((∀ i, i < k → (resps i).status = 403 ∨ (resps i).status = 429) →
      (resps k).status = 200 →
      safe_get_products resps (k + (f + 1)) b =
        { ret := some (resps k).payload, requests := k + 1,
          sleeps := (List.range k).map (fun (i : ℕ) => b * ((i : ℚ) + 1)),
          errorMsg := none, rateLimitWarning := false }) ∧
    ((∀ i, i < retries → (resps i).status = 403 ∨ (resps i).status = 429) →
      safe_get_products resps retries b =
        { ret := none, requests := retries,
          sleeps := (List.range retries).map (fun (i : ℕ) => b * ((i : ℚ) + 1)),
          errorMsg := none, rateLimitWarning := true }) ∧
    ((∀ i, i < k → (resps i).status = 403 ∨ (resps i).status = 429) →
      (resps k).status ≠ 200 →
      ¬ ((resps k).status = 403 ∨ (resps k).status = 429) →
      safe_get_products resps (k + (f + 1)) b =
        { ret := none, requests := k + 1,
          sleeps := (List.range k).map (fun (i : ℕ) => b * ((i : ℚ) + 1)),
          errorMsg := some ((resps k).status, (resps k).body),
          rateLimitWarning := false }) ∧
    (safe_get_products resps retries b).requests ≤ retries ∧
    (safe_get_products resps retries b).sleeps.Pairwise (· < ·) := by
  have hmap : ∀ n, ((List.range n).map fun i => b * (((0 + i : ℕ) : ℚ) + 1)) =
      (List.range n).map (fun (i : ℕ) => b * ((i : ℚ) + 1)) := fun n =>
    congrArg (fun g => (List.range n).map g)
      (funext fun i => by rw [Nat.zero_add])
  refine ⟨?_, ?_, ?_, ?_, ?_⟩
  · intro hrl h200
    unfold safe_get_products
    rw [safeGetGo_skip resps b k (f + 1) 0
      (fun i hi => by rw [Nat.zero_add]; exact hrl i hi)]
    rw [Nat.zero_add, safeGetGo, if_pos h200, hmap]
    simp [Nat.add_comm]
  · intro hrl
    unfold safe_get_products
    have h := safeGetGo_skip resps b retries 0 0
      (fun i hi => by rw [Nat.zero_add]; exact hrl i hi)
    rw [Nat.add_zero] at h
    rw [h, Nat.zero_add, hmap]
    simp [safeGetGo]
  · intro hrl h200 hterm
    unfold safe_get_products
    rw [safeGetGo_skip resps b k (f + 1) 0
      (fun i hi => by rw [Nat.zero_add]; exact hrl i hi)]
    rw [Nat.zero_add, safeGetGo, if_neg h200, if_neg hterm, hmap]
    simp [Nat.add_comm]
  · exact safeGetGo_requests_le resps b retries 0
  · obtain ⟨m, hm⟩ := safeGetGo_sleeps_shape resps b retries 0
    unfold safe_get_products
    rw [hm]
    refine List.Pairwise.map _ (fun x y hxy => ?_) (List.pairwise_lt_range m)
    have hxy' : ((0 + x : ℕ) : ℚ) < ((0 + y : ℕ) : ℚ) := by
      exact_mod_cast (by omega : 0 + x < 0 + y)
    exact mul_lt_mul_of_pos_left (add_lt_add_right hxy' 1) hb

/-- C4 (witness): concrete calls — a 429 then a 200 returns the payload on
the second attempt after one backoff sleep; an immediate 500 is terminal
with its status and body surfaced; three straight 429s with
`retries = 3` consume all attempts and warn. -/
theorem C4_witness :
    safe_get_products (fun a => if a = 0 then ⟨429, "slow", []⟩
        else ⟨200, "", [[("sku", Value.str "1")]]⟩) 3 (3 / 2) =
      { ret := some [[("sku", Value.str "1")]], requests := 2,
        sleeps := (List.range 1).map (fun (i : ℕ) => (3 / 2 : ℚ) * ((i : ℚ) + 1)),
        errorMsg := none, rateLimitWarning := false } ∧
    safe_get_products (fun _ => ⟨500, "boom", []⟩) 3 (3 / 2) =
      { ret := none, requests := 1, sleeps := [],
        errorMsg := some (500, "boom"), rateLimitWarning := false } ∧
    safe_get_products (fun _ => ⟨429, "slow", []⟩) 3 (3 / 2) =
      { ret := none, requests := 3,
        sleeps := (List.range 3).map (fun (i : ℕ) => (3 / 2 : ℚ) * ((i : ℚ) + 1)),
        errorMsg := none, rateLimitWarning := true } :=
  ⟨(C4_thm (fun a => if a = 0 then ⟨429, "slow", []⟩
        else ⟨200, "", [[("sku", Value.str "1")]]⟩) 1 1 3 (3 / 2)
      (by norm_num)).1
      (fun i hi => by interval_cases i; simp)
      (by simp),
    (C4_thm (fun _ => ⟨500, "boom", []⟩) 0 2 3 (3 / 2) (by norm_num)).2.2.1
      (fun i hi => by omega)
      (by simp)
      (by simp),
    (C4_thm (fun _ => ⟨429, "slow", []⟩) 0 0 3 (3 / 2) (by norm_num)).2.1
      (fun i _ => Or.inr rfl)⟩

/-- C7: the category fallback chain, first match wins — (general) a
non-empty category path whose last entry is a dict with a truthy name
always wins, and with neither a category path nor a usable class the
result is exactly the top-level department; (concrete) the four examples
of the claim: a two-entry path yields the last entry's name, a string
class yields itself, a dict class yields its name, a department-only
record yields the department, and a record with none of these yields
absent. -/
theorem C7_thm (p : RawRecord) (xs : List Value)
    (last : List (String × Value)) (n : Value) :
    (dget p "categoryPath" = some (Value.arr xs) →
      xs.getLast? = some (Value.obj last) →
      dget last "name" = some n → n.truthy = true →
      extract_category p = some n) ∧
    (dget p "categoryPath" = none → dget p "class" = none →
      extract_category p = dget p "department") ∧
    extract_category
        [("categoryPath", Value.arr [Value.obj [("name", Value.str "TVs")],
          Value.obj [("name", Value.str "4K TVs")]])] =
      some (Value.str "4K TVs") ∧
    extract_category [("class", Value.str "Laptops")] =
      some (Value.str "Laptops") ∧
    extract_category [("class", Value.obj [("name", Value.str "Laptops")])] =
      some (Value.str "Laptops") ∧
    extract_category [("department", Value.str "Electronics")] =
      some (Value.str "Electronics") ∧
    extract_category [] = none := by
  refine ⟨?_, ?_, rfl, rfl, rfl, rfl, rfl⟩
  · intro h1 h2 h3 h4
    simp [extract_category, h1, h2, h3, h4]
  · intro h1 h2
    simp [extract_category, h1, h2]

/-- C7 (witness): the general path-wins clause applied to a record that
also carries class and department fields. -/
theorem C7_witness :
    extract_category
        [("categoryPath", Value.arr [Value.obj [("name", Value.str "TVs")],
          Value.obj [("name", Value.str "4K TVs")]]),
         ("class", Value.str "Laptops"),
         ("department", Value.str "Electronics")] =
      some (Value.str "4K TVs") :=
  (C7_thm
    [("categoryPath", Value.arr [Value.obj [("name", Value.str "TVs")],
      Value.obj [("name", Value.str "4K TVs")]]),
     ("class", Value.str "Laptops"),
     ("department", Value.str "Electronics")]
    [Value.obj [("name", Value.str "TVs")],
      Value.obj [("name", Value.str "4K TVs")]]
    [("name", Value.str "4K TVs")] (Value.str "4K TVs")).1
    rfl rfl rfl rfl

/-! ## Lemmas about the normalizer -/

/-- Every whitespace character is a separator of the split pattern. -/
theorem ws_isSep (c : Char) (h : c.isWhitespace = true) : isSepChar c = true := by
  simp only [Char.isWhitespace, Bool.or_eq_true, decide_eq_true_eq] at h
  rcases h with ((h | h) | h) | h <;> subst h <;> rfl

/-- Leading whitespace does not change the token runs. -/
theorem tokenizeGo_dropWhile_ws (l : List Char) :
    tokenizeGo (l.dropWhile (fun c => c.isWhitespace)) [] = tokenizeGo l [] := by
  induction l with
  | nil => rfl
  | cons c l ih =>
    by_cases h : c.isWhitespace
    · rw [List.dropWhile_cons, if_pos h, ih, tokenizeGo,
        if_pos (ws_isSep c h)]
      rfl
    · rw [List.dropWhile_cons, if_neg h]

/-- Tokenizing a pure run of separators flushes the current token. -/
theorem tokenizeGo_all_seps (seps cur : List Char)
    (h : ∀ c ∈ seps, isSepChar c = true) :
    tokenizeGo seps cur = if cur.isEmpty then [] else [cur.reverse] := by
  induction seps generalizing cur with
  | nil => rfl
  | cons c cs ih =>
    rw [tokenizeGo, if_pos (h c (List.mem_cons_self c cs))]
    by_cases hc : cur.isEmpty
    · rw [if_pos hc, if_pos hc, ih [] (fun d hd => h d (List.mem_cons_of_mem c hd))]
      rfl
    · rw [if_neg hc, if_neg hc, ih [] (fun d hd => h d (List.mem_cons_of_mem c hd))]
      rfl

/-- Trailing separators do not change the token runs. -/
theorem tokenizeGo_append_seps (l seps cur : List Char)
    (h : ∀ c ∈ seps, isSepChar c = true) :
    tokenizeGo (l ++ seps) cur = tokenizeGo l cur := by
  induction l generalizing cur with
  | nil =>
    rw [List.nil_append, tokenizeGo_all_seps seps cur h]
    rfl
  | cons c cs ih =>
    rw [List.cons_append, tokenizeGo, tokenizeGo]
    by_cases hc : isSepChar c
    · rw [if_pos hc, if_pos hc]
      by_cases hcur : cur.isEmpty
      · rw [if_pos hcur, if_pos hcur, ih []]
      · rw [if_neg hcur, if_neg hcur, ih []]
    · rw [if_neg hc, if_neg hc, ih (c :: cur)]

/-- The `.strip()` applied before the regex split never changes the token
runs: edge whitespace is itself made of separator characters. -/
theorem sepTokens_pyStrip (l : List Char) :
    sepTokens (pyStrip l) = sepTokens l := by
  unfold sepTokens pyStrip dropEdge
  have hm : l.dropWhile (fun c => c.isWhitespace) =
      ((l.dropWhile (fun c => c.isWhitespace)).reverse.dropWhile
          (fun c => c.isWhitespace)).reverse ++
        ((l.dropWhile (fun c => c.isWhitespace)).reverse.takeWhile
          (fun c => c.isWhitespace)).reverse := by
    rw [← List.reverse_append, List.takeWhile_append_dropWhile,
      List.reverse_reverse]
  rw [← tokenizeGo_dropWhile_ws l]
  conv_rhs => rw [hm]
  exact (tokenizeGo_append_seps _ _ []
    (fun c hc => ws_isSep c
      (List.mem_takeWhile_imp (List.mem_reverse.mp hc)))).symm

/-- Consuming a separator-free prefix just accumulates it (reversed) onto
the current token. -/
theorem tokenizeGo_append_free (t l cur : List Char)
    (h : ∀ c ∈ t, isSepChar c = false) :
    tokenizeGo (t ++ l) cur = tokenizeGo l (t.reverse ++ cur) := by
  induction t generalizing cur with
  | nil => simp
  | cons c cs ih =>
    have hc : isSepChar c = false := h c (List.mem_cons_self c cs)
    rw [List.cons_append, tokenizeGo, if_neg (by simp [hc]),
      ih (c :: cur) (fun d hd => h d (List.mem_cons_of_mem c hd))]
    simp

/-- Every token produced by the tokenizer is separator-free. -/
theorem tokenizeGo_sepfree (l : List Char) :
    ∀ cur, (∀ c ∈ cur, isSepChar c = false) →
      ∀ t ∈ tokenizeGo l cur, ∀ c ∈ t, isSepChar c = false := by
  induction l with
  | nil =>
    intro cur hcur t ht c hc
    rw [tokenizeGo] at ht
    by_cases h : cur.isEmpty
    · rw [if_pos h] at ht
      simp at ht
    · rw [if_neg h] at ht
      simp at ht
      subst ht
      exact hcur c (List.mem_reverse.mp hc)
  | cons d ds ih =>
    intro cur hcur t ht c hc
    rw [tokenizeGo] at ht
    by_cases hd : isSepChar d
    · rw [if_pos hd] at ht
      by_cases h : cur.isEmpty
      · rw [if_pos h] at ht
        exact ih [] (by simp) t ht c hc
      · rw [if_neg h] at ht
        rcases List.mem_cons.mp ht with h1 | h1
        · subst h1
          exact hcur c (List.mem_reverse.mp hc)
        · exact ih [] (by simp) t h1 c hc
    · rw [if_neg hd] at ht
      refine ih (d :: cur) ?_ t ht c hc
      intro x hx
      rcases List.mem_cons.mp hx with h1 | h1
      · subst h1
        simpa using hd
      · exact hcur x h1

/-- Characters surviving an edge strip were in the original list. -/
theorem mem_dropEdge {p : Char → Bool} {c : Char} {l : List Char}
    (h : c ∈ dropEdge p l) : c ∈ l := by
  unfold dropEdge at h
  rw [List.mem_reverse] at h
  have h2 : c ∈ (l.dropWhile p).reverse := (List.dropWhile_sublist p).subset h
  rw [List.mem_reverse] at h2
  exact (List.dropWhile_sublist p).subset h2

/-- Characters surviving the token cleaning were in the original token. -/
theorem mem_cleanChars {c : Char} {l : List Char}
    (h : c ∈ cleanChars l) : c ∈ l :=
  mem_dropEdge (mem_dropEdge (mem_dropEdge h))

/-- Everything kept by the dedup loop was in the input. -/
theorem mem_dedupFirstGo {x : String} :
    ∀ {l seen : List String}, x ∈ dedupFirstGo seen l → x ∈ l
  | [], _, h => by simp [dedupFirstGo] at h
  | s :: rest, seen, h => by
    rw [dedupFirstGo] at h
    by_cases hs : s ∈ seen
    · rw [if_pos hs] at h
      exact List.mem_cons_of_mem s (mem_dedupFirstGo h)
    · rw [if_neg hs] at h
      rcases List.mem_cons.mp h with h1 | h1
      · exact h1 ▸ List.mem_cons_self s rest
      · exact List.mem_cons_of_mem s (mem_dedupFirstGo h1)

/-- Nothing kept by the dedup loop was already seen. -/
theorem dedupFirstGo_not_seen {x : String} :
    ∀ {l seen : List String}, x ∈ dedupFirstGo seen l → x ∉ seen
  | [], _, h => by simp [dedupFirstGo] at h
  | s :: rest, seen, h => by
    rw [dedupFirstGo] at h
    by_cases hs : s ∈ seen
    · rw [if_pos hs] at h
      exact dedupFirstGo_not_seen h
    · rw [if_neg hs] at h
      rcases List.mem_cons.mp h with h1 | h1
      · exact h1 ▸ hs
      · intro hx
        exact dedupFirstGo_not_seen h1 (List.mem_cons_of_mem s hx)

/-- The dedup loop's output has no duplicates. -/
theorem dedupFirstGo_nodup : ∀ (l seen : List String),
    (dedupFirstGo seen l).Nodup
  | [], _ => List.nodup_nil
  | s :: rest, seen => by
    rw [dedupFirstGo]
    by_cases hs : s ∈ seen
    · rw [if_pos hs]
      exact dedupFirstGo_nodup rest seen
    · rw [if_neg hs]
      refine List.nodup_cons.mpr ⟨?_, dedupFirstGo_nodup rest (s :: seen)⟩
      intro hmem
      exact dedupFirstGo_not_seen hmem (List.mem_cons_self s seen)

/-- On an already-deduplicated list (disjoint from `seen`) the dedup loop
is the identity. -/
theorem dedupFirstGo_eq_self : ∀ (l seen : List String), l.Nodup →
    (∀ x ∈ l, x ∉ seen) → dedupFirstGo seen l = l
  | [], _, _, _ => rfl
  | s :: rest, seen, hn, hd => by
    rw [dedupFirstGo, if_neg (hd s (List.mem_cons_self s rest))]
    rw [dedupFirstGo_eq_self rest (s :: seen) (List.nodup_cons.mp hn).2
      (fun x hx => by
        intro hmem
        rcases List.mem_cons.mp hmem with h1 | h1
        · exact (List.nodup_cons.mp hn).1 (h1 ▸ hx)
        · exact hd x (List.mem_cons_of_mem s hx) h1)]

/-- The source's `seen`-set loop is exactly the standard keep-the-first
deduplication `List.eraseDups`. -/
theorem dedupFirst_eq_eraseDups (l : List String) :
    dedupFirst l = l.eraseDups := by
  have key : ∀ (l acc : List String),
      List.eraseDups.loop l acc = acc.reverse ++ dedupFirstGo acc l := by
    intro l
    induction l with
    | nil => intro acc; simp [List.eraseDups.loop, dedupFirstGo]
    | cons a as ih =>
      intro acc
      rw [List.eraseDups.loop, dedupFirstGo]
      by_cases ha : a ∈ acc
      · rw [if_pos ha]
        have : acc.elem a = true := List.elem_iff.mpr ha
        rw [this]
        exact ih acc
      · rw [if_neg ha]
        have : acc.elem a = false := by
          rw [← Bool.not_eq_true]
          intro hc
          exact ha (List.elem_iff.mp hc)
        rw [this, ih (a :: acc)]
        simp
  rw [List.eraseDups, key l []]
  rfl

/-- Tokenizing the newline-rejoined output recovers exactly the tokens,
provided each is non-empty and separator-free. -/
theorem tokensOfJoin : ∀ (ts : List (List Char)),
    (∀ t ∈ ts, t ≠ [] ∧ ∀ c ∈ t, isSepChar c = false) →
    tokenizeGo (joinSep ts) [] = ts
  | [], _ => rfl
  | [t], h => by
    obtain ⟨hne, hfree⟩ := h t (List.mem_cons_self t [])
    rw [joinSep, show t = t ++ [] from (List.append_nil t).symm,
      tokenizeGo_append_free t [] [] hfree, tokenizeGo]
    rw [List.append_nil]
    rw [if_neg (by simpa using hne)]
    simp
  | t :: t2 :: rest, h => by
    obtain ⟨hne, hfree⟩ := h t (List.mem_cons_self t (t2 :: rest))
    rw [joinSep, tokenizeGo_append_free t _ [] hfree, List.append_nil,
      tokenizeGo]
    rw [if_pos (show isSepChar '\n' = true from rfl),
      if_neg (show ¬ t.reverse.isEmpty = true by simpa using hne)]
    rw [tokensOfJoin (t2 :: rest)
      (fun u hu => h u (List.mem_cons_of_mem t hu))]
    simp
    simp

/-- `toList` undoes `String.mk`. -/
theorem toList_mk (l : List Char) : (String.mk l).toList = l := rfl

/-- `String.mk` undoes `toList`. -/
theorem mk_toList (s : String) : String.mk s.toList = s := rfl

/-- A packed character list is the empty string iff the list is empty. -/
theorem mk_eq_empty_iff (l : List Char) : String.mk l = "" ↔ l = [] :=
  ⟨fun h => congrArg String.toList h, fun h => h ▸ rfl⟩

/-- Every normalized token is a non-empty, separator-free character run. -/
theorem normalize_props (s : String) :
    ∀ t ∈ normalize_sku_input s,
      t.toList ≠ [] ∧ ∀ c ∈ t.toList, isSepChar c = false := by
  intro t ht
  unfold normalize_sku_input at ht
  by_cases hs : s = ""
  · rw [if_pos hs] at ht
    simp at ht
  · rw [if_neg hs] at ht
    have h1 : t ∈ cleanedTokens s := mem_dedupFirstGo ht
    unfold cleanedTokens at h1
    obtain ⟨l', hl', rfl⟩ := List.mem_map.mp h1
    obtain ⟨h3, h4⟩ := List.mem_filter.mp hl'
    obtain ⟨tok, htok, rfl⟩ := List.mem_map.mp h3
    refine ⟨?_, ?_⟩
    · rw [toList_mk]
      intro hc
      rw [hc] at h4
      simp at h4
    · rw [toList_mk]
      intro c hc
      exact tokenizeGo_sepfree (pyStrip s.toList) [] (by simp) tok htok c
        (mem_cleanChars hc)

/-- The normalized list has no duplicates. -/
theorem normalize_nodup (s : String) : (normalize_sku_input s).Nodup := by
  unfold normalize_sku_input
  by_cases hs : s = ""
  · rw [if_pos hs]
    exact List.nodup_nil
  · rw [if_neg hs]
    exact dedupFirstGo_nodup _ []

/-- Replacing every separator character by a comma leaves the token runs
unchanged: all separators are interchangeable. -/
theorem tokenizeGo_map_canon (l : List Char) :
    ∀ cur, tokenizeGo (l.map (fun c => if isSepChar c then ',' else c)) cur =
      tokenizeGo l cur := by
  induction l with
  | nil => intro cur; rfl
  | cons c cs ih =>
    intro cur
    by_cases hc : isSepChar c
    · rw [List.map_cons, if_pos hc, tokenizeGo, tokenizeGo, if_pos hc,
        if_pos (show isSepChar ',' = true from rfl)]
      by_cases hcur : cur.isEmpty
      · rw [if_pos hcur, if_pos hcur, ih []]
      · rw [if_neg hcur, if_neg hcur, ih []]
    · rw [List.map_cons, if_neg hc, tokenizeGo, tokenizeGo,
        if_neg (by simpa using hc), if_neg (by simpa using hc),
        ih (c :: cur)]

/-- C6: `normalize_sku_input` yields an empty list (not an error) on empty
and on whitespace-only input; its output has no duplicates (a later repeat
is ignored), no empty tokens, and no separator characters inside tokens;
it deduplicates preserving first-seen order (it coincides with the
canonical keep-the-first `List.eraseDups` on the cleaned token list);
comma, space, tab and newline separators are interchangeable (replacing
every separator by a comma leaves the result unchanged, and the mixed
paste "A, B\tC\nA" yields ["A","B","C"]); and surrounding double/single
quotes and whitespace are stripped from each token. -/
theorem C6_thm (s : String) :
    normalize_sku_input "" = [] ∧
    ((∀ c ∈ s.toList, c.isWhitespace = true) → normalize_sku_input s = []) ∧
    (normalize_sku_input s).Nodup ∧
    (∀ t ∈ normalize_sku_input s, t ≠ "") ∧
    (∀ t ∈ normalize_sku_input s, ∀ c ∈ t.toList, isSepChar c = false) ∧
    normalize_sku_input s =
      (if s = "" then [] else (cleanedTokens s).eraseDups) ∧
    normalize_sku_input
        (String.mk (s.toList.map (fun c => if isSepChar c then ',' else c))) =
      normalize_sku_input s ∧
    normalize_sku_input "A, B\tC\nA" = ["A", "B", "C"] ∧
    normalize_sku_input " \"6401728\"  123 " = ["6401728", "123"] ∧
    normalize_sku_input (String.mk [sq, '1', sq, ' ', '2']) = ["1", "2"] ∧
    normalize_sku_input "123, 456\n123" = ["123", "456"] := by
  refine ⟨rfl, ?_, normalize_nodup s, ?_, ?_, ?_, ?_,
    by decide, by decide, by decide, by decide⟩
  · intro h
    unfold normalize_sku_input
    by_cases hs : s = ""
    · rw [if_pos hs]
    · rw [if_neg hs]
      have hstrip : pyStrip s.toList = [] := by
        unfold pyStrip dropEdge
        rw [List.dropWhile_eq_nil_iff.mpr (fun x hx => h x hx)]
        rfl
      unfold cleanedTokens
      rw [hstrip]
      rfl
  · intro t ht hc
    exact (normalize_props s t ht).1 (by rw [hc]; rfl)
  · intro t ht
    exact (normalize_props s t ht).2
  · unfold normalize_sku_input
    by_cases hs : s = ""
    · rw [if_pos hs, if_pos hs]
    · rw [if_neg hs, if_neg hs]
      exact dedupFirst_eq_eraseDups _
  · by_cases hs : s = ""
    · have : s.toList = [] := by rw [hs]; rfl
      rw [this, hs]
      rfl
    · have hs' : String.mk (s.toList.map
          (fun c => if isSepChar c then ',' else c)) ≠ "" := by
        intro hc
        rw [mk_eq_empty_iff, List.map_eq_nil_iff] at hc
        exact hs (by rw [← mk_toList s, hc])
      unfold normalize_sku_input cleanedTokens
      rw [if_neg hs', if_neg hs, toList_mk, sepTokens_pyStrip,
        sepTokens_pyStrip]
      unfold sepTokens
      rw [tokenizeGo_map_canon]

/-- C6 (witness): whitespace-only input yields the empty list. -/
theorem C6_witness : normalize_sku_input "  \t\n " = [] :=
  (C6_thm "  \t\n ").2.1 (by decide)

/-- C9 (counterexample): `normalize` is NOT idempotent.  The token cleaning
strips double quotes before single quotes, so the token `a"'` cleans to
`a"` in one pass and to `a` in a second: re-normalizing the re-joined
output changes it. -/
theorem C9_counterexample :
    normalize_sku_input (rejoinLines
        (normalize_sku_input (String.mk ['a', dq, sq]))) ≠
      normalize_sku_input (String.mk ['a', dq, sq]) := by
  decide

/-- C9 (amended): re-normalizing the re-joined output is a no-op exactly
when every output token is already a fixed point of the token-cleaning
step (as on any input without stacked mixed quotes); in general a second
pass can strip further quote characters. -/
theorem C9_amended_thm (s : String)
    (h : ∀ t ∈ normalize_sku_input s, String.mk (cleanChars t.toList) = t) :
    normalize_sku_input (rejoinLines (normalize_sku_input s)) =
      normalize_sku_input s := by
  by_cases hout : normalize_sku_input s = []
  · rw [hout]
    rfl
  · set out := normalize_sku_input s with hdef
    have hprops : ∀ t ∈ out, t.toList ≠ [] ∧ ∀ c ∈ t.toList,
        isSepChar c = false := by
      rw [hdef]
      exact normalize_props s
    have hnodup : out.Nodup := by
      rw [hdef]
      exact normalize_nodup s
    have hfix : ∀ t ∈ out, String.mk (cleanChars t.toList) = t := by
      rw [hdef]
      exact h
    have htokens : ∀ u ∈ out.map String.toList,
        u ≠ [] ∧ ∀ c ∈ u, isSepChar c = false := by
      intro u hu
      obtain ⟨t, ht, rfl⟩ := List.mem_map.mp hu
      exact hprops t ht
    have hJ : tokenizeGo (joinSep (out.map String.toList)) [] =
        out.map String.toList := tokensOfJoin _ htokens
    obtain ⟨t0, rest, hcase⟩ := List.exists_cons_of_ne_nil hout
    have h0 : t0.toList ≠ [] :=
      (hprops t0 (by rw [hcase]; exact List.mem_cons_self _ _)).1
    have hJne : joinSep (out.map String.toList) ≠ [] := by
      rw [hcase]
      cases rest with
      | nil => simpa [joinSep] using h0
      | cons t1 r2 => simp [joinSep]
    have hclean : (out.map String.toList).map cleanChars =
        out.map String.toList := by
      conv_rhs => rw [← List.map_id (out.map String.toList)]
      refine List.map_congr_left (fun u hu => ?_)
      obtain ⟨t, ht, rfl⟩ := List.mem_map.mp hu
      have h2 := congrArg String.toList (hfix t ht)
      rwa [toList_mk] at h2
    have hfilt : (out.map String.toList).filter (fun l => !l.isEmpty) =
        out.map String.toList := by
      refine List.filter_eq_self.mpr (fun a ha => ?_)
      obtain ⟨t, ht, rfl⟩ := List.mem_map.mp ha
      simpa using (hprops t ht).1
    have hmk : (out.map String.toList).map (fun l => String.mk l) = out := by
      rw [List.map_map]
      conv_rhs => rw [← List.map_id out]
      exact List.map_congr_left (fun t _ => rfl)
    unfold rejoinLines normalize_sku_input cleanedTokens
    rw [if_neg (fun hc => hJne ((mk_eq_empty_iff _).mp hc)), toList_mk,
      sepTokens_pyStrip]
    unfold sepTokens
    rw [hJ, hclean, hfilt, hmk]
    unfold dedupFirst
    exact dedupFirstGo_eq_self out [] hnodup (fun x _ => List.not_mem_nil x)

/-- C9 (witness): on a quote-free input, re-normalizing the re-joined
output is a no-op. -/
theorem C9_witness :
    normalize_sku_input (rejoinLines (normalize_sku_input "abc, def")) =
      normalize_sku_input "abc, def" :=
  C9_amended_thm "abc, def" (by decide)

end BestBuy
